import Mathlib

/-!
Verification development for the Screenly HR-screening backend.

The Python sources are shallowly embedded as Lean definitions:

* `src/backend/services/ai_service.py` — the JSON-reply parsing helpers
  (`_parse_evaluation_response`, `_parse_qualifications_response`,
  `_parse_personal_data_response`), the extraction entry points
  (`extract_qualifications`, `extract_personal_data`, `evaluate_candidate`)
  and the PDF text extractor (`extract_text_from_pdf`).
* `src/backend/services/google_sheets_service.py` — `get_job_profile_by_role`.
* `src/backend/v1/routes/candidate_routes.py` — the orchestration pipeline
  `process_application_async`, plus the `submit_application` and
  `reprocess_application` entry points.

External collaborators (the Gemini backend, Python's `json.loads`, Python's
`float` coercion, the PDF libraries, the spreadsheet API, the network) are
modelled as parameters: a backend reply is an `Option` value (`none` meaning
the call raised), `json.loads` is an arbitrary function
`List Char → Option JsonVal` (`none` meaning it raised), and so on.  The
control flow of the Python functions themselves — brace search, try/except
structure, clamping, truthiness tests, status writes, commits — is translated
concretely, line by line.
-/

namespace Screenly

/-- Python values produced by `json.loads`: `null` (Python `None`), booleans,
numbers, strings, lists and dicts (association lists, insertion order kept). -/
inductive JsonVal where
  | null : JsonVal
  | bool : Bool → JsonVal
  | num : ℚ → JsonVal
  | str : String → JsonVal
  | arr : List JsonVal → JsonVal
  | obj : List (String × JsonVal) → JsonVal

/-- Python truthiness of a `JsonVal` (`if x:`): `None`, `False`, `0`, `""`,
`[]` and the empty dict are falsy, everything else is truthy. -/
def JsonVal.truthy : JsonVal → Bool
  | .null => false
  | .bool b => b
  | .num q => decide (q ≠ 0)
  | .str s => decide (s ≠ "")
  | .arr xs => match xs with | [] => false | _ => true
  | .obj fs => match fs with | [] => false | _ => true

/-- Membership of a key in a Python dict (`key in d`). -/
def objHasKey (fields : List (String × JsonVal)) (key : String) : Bool :=
  fields.any (fun p => p.1 == key)

/-- Indexing a Python dict (`d[key]`); for duplicate keys the last wins,
matching how `json.loads` builds the dict. -/
def objIndex (fields : List (String × JsonVal)) (key : String) : Option JsonVal :=
  (fields.reverse.find? (fun p => p.1 == key)).map (fun p => p.2)

/-- Python `d.get(key, default)`. -/
def objGet (fields : List (String × JsonVal)) (key : String) (dflt : JsonVal) : JsonVal :=
  (objIndex fields key).getD dflt

/-- Python `d[key] = v` on a dict that already holds `key` (in-place update,
position preserved). -/
def objSet (fields : List (String × JsonVal)) (key : String) (v : JsonVal) :
    List (String × JsonVal) :=
  fields.map (fun p => if p.1 == key then (key, v) else p)

/-- Helper for Python `str.find`: index of the first occurrence from `i`. -/
def strFindAux : List Char → Char → Int → Int
  | [], _, _ => -1
  | c :: cs, t, i => if c == t then i else strFindAux cs t (i + 1)

/-- Python `s.find(c)`: index of the first occurrence of `c`, `-1` if absent. -/
def strFind (s : List Char) (c : Char) : Int :=
  strFindAux s c 0

/-- Python `s.rfind(c)`: index of the last occurrence of `c`, `-1` if absent. -/
def strRfind (s : List Char) (c : Char) : Int :=
  let r := strFind s.reverse c
  if r = -1 then -1 else (s.length : Int) - 1 - r

/-- Python `s[a:b]` for the non-negative indices produced by a successful
brace search. -/
def pySlice (s : List Char) (a b : Int) : List Char :=
  (s.drop a.toNat).take (b - a).toNat

/-- The substring `response[response.find('\x7b') : response.rfind('\x7d')+1]`
that every `_parse_*_response` helper feeds to `json.loads`. -/
def braceSlice (response : List Char) : List Char :=
  pySlice response (strFind response '{') (strRfind response '}' + 1)

/-- The fallback dict returned by `_parse_evaluation_response` when anything
goes wrong: `vote = 0.0`, failure rationale. -/
def sentinelEval : JsonVal :=
  .obj [("vote", .num 0), ("consideration", .str "Unable to parse evaluation")]

/-- Python `'vote' in result` for each possible type of `result`:
key membership for dicts, element membership for lists, substring test for
strings; raises `TypeError` (modelled as `none`) on numbers, booleans, `None`. -/
def voteIn : JsonVal → Option Bool
  | .obj fields => some (objHasKey fields "vote")
  | .arr xs => some (xs.any (fun x => match x with | .str s => s == "vote" | _ => false))
  | .str s => some (listContainsChars "vote".toList s.toList)
  | _ => none
where
  startsWith : List Char → List Char → Bool
    | [], _ => true
    | _ :: _, [] => false
    | a :: as, b :: bs => a == b && startsWith as bs
  listContainsChars (needle hay : List Char) : Bool :=
    (List.range (hay.length + 1)).any (fun i => startsWith needle (hay.drop i))

/-- Embedding of `AIService._parse_evaluation_response`
(`src/backend/services/ai_service.py:230-248`).  `loads` models `json.loads`
(`none` = raised), `pyFloat` models Python's `float(·)` coercion (`none` =
raised).  The original falls through to the sentinel dict both when the brace
guard `start != -1 and end != 0` fails and when any exception is caught; both
paths are mapped to `sentinelEval`. -/
def parse_evaluation_response (loads : List Char → Option JsonVal)
    (pyFloat : JsonVal → Option ℚ) (response : List Char) : JsonVal :=
  let start := strFind response '{'
  let stop := strRfind response '}' + 1
  if start = -1 ∨ stop = 0 then sentinelEval
  else
    match loads (pySlice response start stop) with
    | none => sentinelEval
    | some result =>
      match voteIn result with
      | none => sentinelEval
      | some false => result
      | some true =>
        match result with
        | .obj fields =>
          match objIndex fields "vote" with
          | none => sentinelEval
          | some jv =>
            match pyFloat jv with
            | none => sentinelEval
            | some v => .obj (objSet fields "vote" (.num (max 1 (min 10 v))))
        | _ => sentinelEval

/-- Embedding of `AIService.evaluate_candidate`
(`src/backend/services/ai_service.py:136-163`).  `backend` is the outcome of
`_call_gemini` (`none` = raised).  The returned pair is
`(result.get('vote', 0.0), result.get('consideration', ...))`; when the parsed
result is not a dict, `.get` raises and the enclosing `except` returns the
`(0.0, "Evaluation failed: ...")` pair. -/
def evaluate_candidate (loads : List Char → Option JsonVal)
    (pyFloat : JsonVal → Option ℚ) (backend : Option (List Char)) : JsonVal × JsonVal :=
  match backend with
  | none => (.num 0, .str "Evaluation failed")
  | some response =>
    match parse_evaluation_response loads pyFloat response with
    | .obj fields => (objGet fields "vote" (.num 0), objGet fields "consideration" (.str "Unable to evaluate"))
    | _ => (.num 0, .str "Evaluation failed")

/-- Result record of `extract_qualifications`; fields are the dict values,
`JsonVal.null` standing for Python `None`. -/
structure QualificationsResult where
  educational_qualification : JsonVal
  job_history : JsonVal
  skills : JsonVal

/-- The all-`None` fallback of `_parse_qualifications_response` /
`extract_qualifications`. -/
def defaultQuals : QualificationsResult :=
  ⟨.null, .null, .null⟩

/-- Embedding of `AIService._parse_qualifications_response`
(`src/backend/services/ai_service.py:206-228`).  When `json.loads` yields a
non-dict, `data.get` raises and the caught exception falls through to the
all-`None` dict. -/
def parse_qualifications_response (loads : List Char → Option JsonVal)
    (response : List Char) : QualificationsResult :=
  let start := strFind response '{'
  let stop := strRfind response '}' + 1
  if start = -1 ∨ stop = 0 then defaultQuals
  else
    match loads (pySlice response start stop) with
    | some (.obj fields) =>
      ⟨objGet fields "Educational qualification" .null,
       objGet fields "Job History" .null,
       objGet fields "Skills" .null⟩
    | some _ => defaultQuals
    | none => defaultQuals

/-- Embedding of `AIService.extract_qualifications`
(`src/backend/services/ai_service.py:84-111`).  `backend` is the outcome of
`_call_gemini`; a raised backend call is caught and the all-`None` record is
returned.  The function is total: no input makes it raise. -/
def extract_qualifications (loads : List Char → Option JsonVal)
    (backend : Option (List Char)) : QualificationsResult :=
  match backend with
  | none => defaultQuals
  | some response => parse_qualifications_response loads response

/-- Result record of `extract_personal_data`. -/
structure PersonalDataResult where
  telephone : JsonVal
  city : JsonVal
  birthdate : JsonVal

/-- The all-`None` fallback of `_parse_personal_data_response` /
`extract_personal_data`. -/
def defaultPersonal : PersonalDataResult :=
  ⟨.null, .null, .null⟩

/-- Embedding of `AIService._parse_personal_data_response`
(`src/backend/services/ai_service.py:184-204`). -/
def parse_personal_data_response (loads : List Char → Option JsonVal)
    (response : List Char) : PersonalDataResult :=
  let start := strFind response '{'
  let stop := strRfind response '}' + 1
  if start = -1 ∨ stop = 0 then defaultPersonal
  else
    match loads (pySlice response start stop) with
    | some (.obj fields) =>
      ⟨objGet fields "telephone" .null,
       objGet fields "city" .null,
       objGet fields "birthdate" .null⟩
    | some _ => defaultPersonal
    | none => defaultPersonal

/-- Embedding of `AIService.extract_personal_data`
(`src/backend/services/ai_service.py:59-82`); total, like
`extract_qualifications`. -/
def extract_personal_data (loads : List Char → Option JsonVal)
    (backend : Option (List Char)) : PersonalDataResult :=
  match backend with
  | none => defaultPersonal
  | some response => parse_personal_data_response loads response

/-- Separator `"\n\n"` used to join per-page text. -/
def pageSep : List Char :=
  ['\n', '\n']

/-- Python `"\n\n".join(parts)`. -/
def joinSep : List (List Char) → List Char
  | [] => []
  | [p] => p
  | p :: q :: rest => p ++ pageSep ++ joinSep (q :: rest)

/-- Embedding of `AIService.extract_text_from_pdf`
(`src/backend/services/ai_service.py:29-57`).  `plumber` is the outcome of the
pdfplumber pass (`none` = some exception in the block; `some pages` = the
per-page `extract_text()` results, empty/`None` pages modelled as `[]` since
`if text:` treats both alike); `pypdf` likewise for the PyPDF2 fallback.  Note
the fallback returns the joined text without checking it is non-empty. -/
def extract_text_from_pdf (plumber pypdf : Option (List (List Char))) :
    Except String (List Char) :=
  let viaPyPDF : Except String (List Char) :=
    match pypdf with
    | some pages => .ok (joinSep (pages.filter (fun t => !t.isEmpty)))
    | none => .error "Failed to extract text from PDF"
  match plumber with
  | some pages =>
    let text_parts := pages.filter (fun t => !t.isEmpty)
    match text_parts with
    | [] => viaPyPDF
    | _ => .ok (joinSep text_parts)
  | none => viaPyPDF

/-- Spreadsheet row as returned by `worksheet.get_all_records()`; the columns
the service reads (`Role`, `Profile Wanted`, ...), absent cells read as `""`
via `record.get(col, "")`. -/
structure SheetsRecord where
  role : String
  profile_wanted : String
  required_skills : String
  experience_level : String
  education_requirements : String

/-- ASCII lowercase of one character, the effect of Python's `str.lower` on
the role names the repository uses. -/
def charLower (c : Char) : Char :=
  if 65 ≤ c.toNat ∧ c.toNat ≤ 90 then Char.ofNat (c.toNat + 32) else c

/-- Python `s.lower()` over the character list. -/
def lowerChars (s : List Char) : List Char :=
  s.map charLower

/-- Embedding of `GoogleSheetsService.get_job_profile_by_role`
(`src/backend/services/google_sheets_service.py:122-149`): returns `none` when
the service is unavailable or any spreadsheet call raises (the exception is
caught and `None` returned), else the first record whose `Role` matches the
requested role case-insensitively. -/
def get_job_profile_by_role (available : Bool) (raises : Bool)
    (records : List SheetsRecord) (role : String) : Option SheetsRecord :=
  if !available then none
  else if raises then none
  else records.find? (fun r => lowerChars r.role.toList == lowerChars role.toList)

/-- Row of the `candidate_applications` table
(`src/backend/models/CandidateApplication.py`).  Columns written by the AI
pipeline carry Python values (`JsonVal`); the file-storage columns
(`cv_filename`, `cv_file_path`) and `submitted_at`, irrelevant to every claim,
are omitted.  Timestamps are naturals. -/
structure AppRecord where
  id : ℕ
  name : String
  email : String
  phone : JsonVal
  city : JsonVal
  birthdate : JsonVal
  educational_qualification : JsonVal
  job_history : JsonVal
  skills : JsonVal
  job_id : ℕ
  job_role : String
  cv_text_content : Option String
  application_status : String
  processed_at : Option ℕ

/-- Row of the `candidate_evaluations` table
(`src/backend/models/CandidateEvaluation.py`). -/
structure EvalRecord where
  id : ℕ
  application_id : ℕ
  candidate_summary : String
  ai_score : JsonVal
  ai_considerations : JsonVal
  job_profile_requirements : String
  alignment_analysis : Option String
  hr_reviewed : Bool
  hr_score : Option ℚ
  hr_notes : Option String
  hr_decision : Option String
  evaluation_status : String
  evaluated_at : Option ℕ
  evaluated_by : Option ℕ
  exported_to_sheets : Bool
  sheets_row_id : Option String

/-- Row of the `jobs` table (the columns the pipeline reads). -/
structure JobRec where
  id : ℕ
  title : String
  job_profile_id : Option ℕ

/-- Row of the `job_profiles` table (the columns the pipeline reads). -/
structure JobProfileRec where
  id : ℕ
  role : String
  profile_wanted : String

/-- The committed relational store.  SQLAlchemy's `.first()` is modelled as
`List.find?` (first row in insertion order). -/
structure DB where
  applications : List AppRecord
  evaluations : List EvalRecord
  jobs : List JobRec
  job_profiles : List JobProfileRec
  nextAppId : ℕ
  nextEvalId : ℕ
  nextJobId : ℕ

/-- Python truthiness of a nullable text column (`if not x:`): `None` and the
empty string are falsy. -/
def truthyOptStr : Option String → Bool
  | none => false
  | some s => decide (s ≠ "")

/-- Injection points for unhandled exceptions during a pipeline run.  The AI
service calls never raise (each catches internally), so the raising operations
inside the orchestrator's `try` are the database interactions and the
spreadsheet export: `atSteps` stands for any raising operation between the
`processing` commit and the evaluation upsert (job/profile/evaluation
queries), `atFinalCommit` for the commit that would store `evaluated`,
`atExport` for an exception inside the export's inner `try`. -/
inductive CrashSite where
  | atSteps : CrashSite
  | atFinalCommit : CrashSite
  | atExport : CrashSite
deriving DecidableEq

/-- Outcomes of one pipeline run's external collaborators: the two extraction
results (already-parsed, since `extract_personal_data` and
`extract_qualifications` are total), the generated summary, the scorer's
`(ai_score, ai_considerations)` pair, the spreadsheet configuration and
contents, the export outcome (`Except.error` = the export call raised), an
optional injected crash, and the run's clock. -/
structure RunEnv where
  personal : PersonalDataResult
  quals : QualificationsResult
  summary : String
  score : JsonVal × JsonVal
  profilesUrl : Bool
  sheetsAvailable : Bool
  sheetsRaise : Bool
  sheetsRecords : List SheetsRecord
  resultsUrl : Bool
  exportOutcome : Except Unit String
  crash : Option CrashSite
  now : ℕ

/-- Step (a) of profile resolution
(`src/backend/v1/routes/candidate_routes.py:280-289`): the job row referenced
by the application, then the profile row referenced by `job.job_profile_id`. -/
def fkProfile (db : DB) (app : AppRecord) : Option JobProfileRec :=
  match db.jobs.find? (fun j => j.id == app.job_id) with
  | some j =>
    match j.job_profile_id with
    | some pid => db.job_profiles.find? (fun p => p.id == pid)
    | none => none
  | none => none

/-- Step (b) of profile resolution
(`src/backend/v1/routes/candidate_routes.py:291-297`): case-sensitive exact
match of `JobProfile.role` against the application's `job_role`. -/
def roleProfile (db : DB) (app : AppRecord) : Option JobProfileRec :=
  db.job_profiles.find? (fun p => p.role == app.job_role)

/-- Embedding of the profile-resolution block of `process_application_async`
(`src/backend/v1/routes/candidate_routes.py:280-307`).  Note the two distinct
guards of the original: the role-match fallback runs only when no profile
OBJECT was found (`if not job_profile`), while the spreadsheet fallback runs
whenever the requirements TEXT is still empty (`if not profile_requirements`),
even if an earlier step found a profile whose `profile_wanted` is `""`. -/
def resolveProfileRequirements (env : RunEnv) (db : DB) (app : AppRecord) : String :=
  let step1 : Option JobProfileRec × String :=
    match fkProfile db app with
    | some p => (some p, p.profile_wanted)
    | none => (none, "")
  let step2 : Option JobProfileRec × String :=
    match step1.1 with
    | some _ => step1
    | none =>
      match roleProfile db app with
      | some p => (some p, p.profile_wanted)
      | none => step1
  if step2.2 = "" then
    if env.profilesUrl && env.sheetsAvailable then
      match get_job_profile_by_role env.sheetsAvailable env.sheetsRaise
          env.sheetsRecords app.job_role with
      | some profile_data => profile_data.profile_wanted
      | none => step2.2
    else step2.2
  else step2.2

/-- The ORM session during one run: the committed store, the in-memory
application object, the in-memory evaluation object once loaded or created
(`evalNewPending` marks an object passed to `db.add` but not yet flushed), and
the trace of this application's status at each successful commit. -/
structure Sess where
  db : DB
  app : AppRecord
  evalObj : Option EvalRecord
  evalNewPending : Bool
  trace : List String

/-- Result of one `process_application_async` run: the committed store, whether
the run re-raised (`raise e` in the outer `except`), and the committed status
trace of the application. -/
structure ProcessResult where
  db : DB
  raised : Bool
  trace : List String

/-- Model of `db.commit()`: flush the session's application object and
evaluation object (insert if newly added, else update in place) into the
store, and record the application's status. -/
def commitSess (s : Sess) : Sess :=
  let apps := s.db.applications.map (fun a => if a.id == s.app.id then s.app else a)
  let evalsAndNext : List EvalRecord × ℕ :=
    match s.evalObj with
    | none => (s.db.evaluations, s.db.nextEvalId)
    | some e =>
      if s.evalNewPending then (s.db.evaluations ++ [e], s.db.nextEvalId + 1)
      else (s.db.evaluations.map (fun x => if x.id == e.id then e else x), s.db.nextEvalId)
  { db :=
      { s.db with
        applications := apps
        evaluations := evalsAndNext.1
        nextEvalId := evalsAndNext.2 }
    app := s.app
    evalObj := s.evalObj
    evalNewPending := false
    trace := s.trace ++ [s.app.application_status] }

/-- The outer `except` of `process_application_async`
(`src/backend/v1/routes/candidate_routes.py:373-378`): set the status to
`failed`, commit (which also flushes any pending session changes), re-raise. -/
def failRun (s : Sess) : ProcessResult :=
  let s' := commitSess { s with app := { s.app with application_status := "failed" } }
  ⟨s'.db, true, s'.trace⟩

/-- Embedding of `process_application_async`
(`src/backend/v1/routes/candidate_routes.py:238-378`), the pipeline
orchestrator.  Missing application or falsy stored CV text returns silently;
otherwise: commit `processing`; merge the extraction results into the
application (the AI phone only when the stored phone is falsy); resolve the
profile requirements; upsert the evaluation; commit `evaluated`; then the
best-effort export whose failures are swallowed by an inner `except`. -/
def process_application_async (env : RunEnv) (application_id : ℕ) (db : DB) :
    ProcessResult :=
  match db.applications.find? (fun a => a.id == application_id) with
  | none => ⟨db, false, []⟩
  | some app0 =>
    if !truthyOptStr app0.cv_text_content then ⟨db, false, []⟩
    else
      let s := commitSess ⟨db, { app0 with application_status := "processing" }, none, false, []⟩
      let personal := env.personal
      let quals := env.quals
      let app1 := { s.app with city := personal.city, birthdate := personal.birthdate }
      let app2 := { app1 with
        phone := if !app1.phone.truthy && personal.telephone.truthy then
          personal.telephone else app1.phone }
      let app3 := { app2 with
        educational_qualification := quals.educational_qualification,
        job_history := quals.job_history,
        skills := quals.skills,
        processed_at := some env.now }
      let s := { s with app := app3 }
      let candidate_summary := env.summary
      if env.crash = some .atSteps then failRun s
      else
        let profile_requirements := resolveProfileRequirements env s.db s.app
        let ai_score := env.score.1
        let ai_considerations := env.score.2
        let s :=
          match s.db.evaluations.find? (fun e => e.application_id == application_id) with
          | none =>
            let newEval : EvalRecord :=
              { id := s.db.nextEvalId, application_id := application_id,
                candidate_summary := candidate_summary, ai_score := ai_score,
                ai_considerations := ai_considerations,
                job_profile_requirements := profile_requirements,
                alignment_analysis := none,
                hr_reviewed := false, hr_score := none, hr_notes := none,
                hr_decision := none, evaluation_status := "completed",
                evaluated_at := some env.now, evaluated_by := none,
                exported_to_sheets := false, sheets_row_id := none }
            { s with evalObj := some newEval, evalNewPending := true }
          | some e =>
            { s with
              evalObj := some
                { e with
                  candidate_summary := candidate_summary
                  ai_score := ai_score
                  ai_considerations := ai_considerations
                  job_profile_requirements := profile_requirements
                  evaluation_status := "completed"
                  evaluated_at := some env.now }
              evalNewPending := false }
        let s := { s with app := { s.app with application_status := "evaluated" } }
        if env.crash = some .atFinalCommit then failRun s
        else
          let s := commitSess s
          if env.resultsUrl && env.sheetsAvailable then
            if env.crash = some .atExport then ⟨s.db, false, s.trace⟩
            else
              match env.exportOutcome with
              | .error _ => ⟨s.db, false, s.trace⟩
              | .ok sheets_row_id =>
                if sheets_row_id ≠ "" then
                  let s := { s with evalObj := s.evalObj.map (fun e =>
                    { e with exported_to_sheets := true, sheets_row_id := some sheets_row_id }) }
                  let s := commitSess s
                  ⟨s.db, false, s.trace⟩
                else ⟨s.db, false, s.trace⟩
          else ⟨s.db, false, s.trace⟩

/-- HTTP-level outcome of the reprocess endpoint. -/
inductive ReprocessOutcome where
  | success : ReprocessOutcome
  | notFound : ReprocessOutcome
  | serverError : ReprocessOutcome
deriving DecidableEq

/-- Result of the reprocess endpoint: HTTP outcome, committed store, status
trace of the run. -/
structure ReprocessResult where
  outcome : ReprocessOutcome
  db : DB
  trace : List String

/-- Embedding of the `reprocess_application` route
(`src/backend/v1/routes/candidate_routes.py:215-236`), after the HR
authorization check: 404 when the application does not exist, otherwise run
the pipeline, mapping a re-raised exception to a 500 and everything else to
success.  There is no guard on the application's current status. -/
def reprocess_application (env : RunEnv) (application_id : ℕ) (db : DB) :
    ReprocessResult :=
  match db.applications.find? (fun a => a.id == application_id) with
  | none => ⟨.notFound, db, []⟩
  | some _ =>
    let r := process_application_async env application_id db
    if r.raised then ⟨.serverError, r.db, r.trace⟩ else ⟨.success, r.db, r.trace⟩

/-- Result of the submit endpoint: committed store, HTTP outcome (`ok` with
the new application id, or an error), and the new application's committed
status trace (starting with `submitted`). -/
structure SubmitResult where
  db : DB
  outcome : Except String ℕ
  trace : List String

/-- Python `needle.lower() in hay.lower()`, the `ilike '%role%'` match of the
job lookup at submission. -/
def ilikeContains (hay needle : String) : Bool :=
  voteIn.listContainsChars (lowerChars needle.toList) (lowerChars hay.toList)

/-- Embedding of the database core of the `submit_application` route
(`src/backend/v1/routes/candidate_routes.py:35-115`): find a job whose title
contains the role (case-insensitively) or create a default one; create the
application with status `submitted` and the extracted CV text; run the
pipeline; a pipeline exception is caught and mapped to an HTTP 500 (the
`failed` application row remains committed).  `extractOutcome` is the outcome
of `extract_text_from_pdf`: an extraction error aborts before any row is
created.  The HTTP file-validation glue is outside the model. -/
def submit_application (env : RunEnv) (name email : String) (phone : JsonVal)
    (job_role : String) (extractOutcome : Except String String) (db : DB) :
    SubmitResult :=
  match extractOutcome with
  | .error e => ⟨db, .error ("Failed to process application: " ++ e), []⟩
  | .ok cv_text =>
    let jobAndDb : JobRec × DB :=
      match db.jobs.find? (fun j => ilikeContains j.title job_role) with
      | some j => (j, db)
      | none =>
        let j : JobRec := { id := db.nextJobId, title := job_role ++ " Position",
                            job_profile_id := none }
        (j, { db with jobs := db.jobs ++ [j], nextJobId := db.nextJobId + 1 })
    let job := jobAndDb.1
    let db1 := jobAndDb.2
    let application : AppRecord :=
      { id := db1.nextAppId, name := name, email := email, phone := phone,
        city := .null, birthdate := .null,
        educational_qualification := .null, job_history := .null, skills := .null,
        job_id := job.id, job_role := job_role,
        cv_text_content := some cv_text,
        application_status := "submitted", processed_at := none }
    let db2 : DB :=
      { db1 with
        applications := db1.applications ++ [application]
        nextAppId := db1.nextAppId + 1 }
    let r := process_application_async env application.id db2
    if r.raised then
      ⟨r.db, .error "Failed to process application", "submitted" :: r.trace⟩
    else ⟨r.db, .ok application.id, "submitted" :: r.trace⟩

/-- The application row with the given id, as stored. -/
def appOf (db : DB) (application_id : ℕ) : Option AppRecord :=
  db.applications.find? (fun a => a.id == application_id)

/-- The first evaluation row for the given application, as the orchestrator's
upsert query sees it. -/
def evalOf (db : DB) (application_id : ℕ) : Option EvalRecord :=
  db.evaluations.find? (fun e => e.application_id == application_id)

/-- Number of evaluation rows keyed by the given application. -/
def countEvals (db : DB) (application_id : ℕ) : ℕ :=
  (db.evaluations.filter (fun e => e.application_id == application_id)).length

/-- Stored status of an application (`"missing"` when the row is absent, in
which case every run's trace is empty anyway). -/
def statusOf (db : DB) (application_id : ℕ) : String :=
  ((appOf db application_id).map (fun a => a.application_status)).getD "missing"

/-- Adjacent pairs of a list. -/
def adjacentPairs : List String → List (String × String)
  | a :: b :: rest => (a, b) :: adjacentPairs (b :: rest)
  | _ => []

/-- The status transitions exhibited by a run: adjacent distinct pairs of the
initial status followed by the committed statuses. -/
def transitionsOf (init : String) (trace : List String) : List (String × String) :=
  (adjacentPairs (init :: trace)).filter (fun p => !(p.1 == p.2))

/-- The transitions the code can actually commit: anything into `processing`
(reprocess has no status guard), and `processing` into `evaluated` or
`failed`. -/
def allowedTransition (p : String × String) : Bool :=
  p.2 == "processing" || (p.1 == "processing" && (p.2 == "evaluated" || p.2 == "failed"))

/-- Modelled from the spec (claim C2): the transition relation the spec
asserts — `submitted → processing`, `processing → evaluated`,
`processing → failed`, and `failed → processing`. -/
def claimedTransition (p : String × String) : Bool :=
  (p.1 == "submitted" && p.2 == "processing")
    || (p.1 == "processing" && (p.2 == "evaluated" || p.2 == "failed"))
    || (p.1 == "failed" && p.2 == "processing")

/-- Modelled from the spec (claim C7): an ordered fallback chain that
short-circuits on the first resolver yielding requirements text — the FK
profile's text if non-empty, else the role-matched profile's text if
non-empty, else the spreadsheet lookup's text, else empty. -/
def resolveProfileSpecChain (env : RunEnv) (db : DB) (app : AppRecord) : String :=
  let fkText := match fkProfile db app with
    | some p => p.profile_wanted
    | none => ""
  let roleText := match roleProfile db app with
    | some p => p.profile_wanted
    | none => ""
  let sheetsText :=
    if env.profilesUrl && env.sheetsAvailable then
      match get_job_profile_by_role env.sheetsAvailable env.sheetsRaise
          env.sheetsRecords app.job_role with
      | some profile_data => profile_data.profile_wanted
      | none => ""
    else ""
  if fkText ≠ "" then fkText
  else if roleText ≠ "" then roleText
  else sheetsText

/-- Sample run environment: every external call succeeds, spreadsheets are
unconfigured, no crash is injected. -/
def envA : RunEnv :=
  { personal := ⟨.str "123456", .str "Rome", .null⟩
    quals := ⟨.str "BSc", .str "Dev", .str "Python"⟩
    summary := "A fine candidate"
    score := (.num 7, .str "good fit")
    profilesUrl := false
    sheetsAvailable := false
    sheetsRaise := false
    sheetsRecords := []
    resultsUrl := false
    exportOutcome := .ok "5"
    crash := none
    now := 100 }

/-- Sample submitted application with a declared phone number. -/
def appA : AppRecord :=
  { id := 1, name := "Ada", email := "ada@example.com", phone := .str "555"
    city := .null, birthdate := .null, educational_qualification := .null
    job_history := .null, skills := .null, job_id := 1, job_role := "Sales"
    cv_text_content := some "cv text", application_status := "submitted"
    processed_at := none }

/-- Sample job row. -/
def jobA : JobRec :=
  { id := 1, title := "Sales Position", job_profile_id := none }

/-- Sample store holding one submitted application and no evaluation. -/
def dbA : DB :=
  { applications := [appA], evaluations := [], jobs := [jobA]
    job_profiles := [], nextAppId := 2, nextEvalId := 1, nextJobId := 2 }

/-- Sample pre-existing evaluation row carrying a human review. -/
def evalB : EvalRecord :=
  { id := 1, application_id := 1, candidate_summary := "old"
    ai_score := .num 3, ai_considerations := .str "meh"
    job_profile_requirements := "old req", alignment_analysis := none
    hr_reviewed := true, hr_score := some 8, hr_notes := some "promising"
    hr_decision := some "interview", evaluation_status := "completed"
    evaluated_at := some 50, evaluated_by := some 9
    exported_to_sheets := false, sheets_row_id := none }

/-- Sample store whose application already has a reviewed evaluation. -/
def dbB : DB :=
  { dbA with evaluations := [evalB] }

/-- A job profile referenced by foreign key whose requirements text is empty. -/
def profEmptyC7 : JobProfileRec :=
  { id := 1, role := "SecurityFK", profile_wanted := "" }

/-- A job profile whose role matches the application's declared role exactly. -/
def profRoleC7 : JobProfileRec :=
  { id := 2, role := "Security", profile_wanted := "Role match" }

/-- A job explicitly referencing `profEmptyC7`. -/
def jobC7 : JobRec :=
  { id := 1, title := "Security Position", job_profile_id := some 1 }

/-- A spreadsheet row matching the role case-insensitively. -/
def sheetsRecC7 : SheetsRecord :=
  { role := "security", profile_wanted := "From sheets", required_skills := ""
    experience_level := "", education_requirements := "" }

/-- Sample application for the Security role. -/
def appC7 : AppRecord :=
  { appA with job_role := "Security" }

/-- Store exercising the profile-resolution corner: the FK-referenced profile
has empty text while a role-matching profile with text exists. -/
def dbC7 : DB :=
  { applications := [appC7], evaluations := [], jobs := [jobC7]
    job_profiles := [profEmptyC7, profRoleC7], nextAppId := 2, nextEvalId := 1
    nextJobId := 2 }

/-- Environment with the profile spreadsheet configured and available. -/
def envC7 : RunEnv :=
  { envA with
    profilesUrl := true
    sheetsAvailable := true
    sheetsRecords := [sheetsRecC7] }

/-! ## Helper lemmas about the Python-dict model -/

theorem objIndex_eq_none_of_not_hasKey (fields : List (String × JsonVal)) (key : String)
    (h : objHasKey fields key = false) : objIndex fields key = none := by
  have h' : ∀ p ∈ fields, ¬ ((p.1 == key) = true) := by
    simpa [objHasKey, List.any_eq_false] using h
  unfold objIndex
  rw [List.find?_eq_none.mpr (fun p hp => h' p (List.mem_reverse.mp hp))]
  rfl

theorem objHasKey_of_objIndex (fields : List (String × JsonVal)) (key : String)
    (jv : JsonVal) (h : objIndex fields key = some jv) : objHasKey fields key = true := by
  by_contra hn
  rw [objIndex_eq_none_of_not_hasKey fields key (Bool.eq_false_iff.mpr hn)] at h
  exact Option.noConfusion h

theorem find?_map_objSet (l : List (String × JsonVal)) (key : String) (v : JsonVal)
    (h : l.any (fun p => p.1 == key) = true) :
    (l.map (fun p => if p.1 == key then (key, v) else p)).find?
      (fun p => p.1 == key) = some (key, v) := by
  induction l with
  | nil => simp at h
  | cons p rest ih =>
    by_cases hp : (p.1 == key) = true
    · rw [List.map_cons, if_pos hp]
      exact List.find?_cons_of_pos _ (by simp)
    · have hrest : rest.any (fun p => p.1 == key) = true := by
        simp only [List.any_cons, Bool.or_eq_true] at h
        exact h.resolve_left hp
      have hstep : List.find? (fun q => q.1 == key)
            (p :: (rest.map (fun q => if q.1 == key then (key, v) else q)))
          = List.find? (fun q => q.1 == key)
            (rest.map (fun q => if q.1 == key then (key, v) else q)) :=
        List.find?_cons_of_neg _ hp
      rw [List.map_cons, if_neg hp, hstep]
      exact ih hrest

theorem objIndex_objSet (fields : List (String × JsonVal)) (key : String) (v : JsonVal)
    (h : objHasKey fields key = true) : objIndex (objSet fields key v) key = some v := by
  have hrev : fields.reverse.any (fun p => p.1 == key) = true := by
    simp only [objHasKey, List.any_eq_true] at h
    obtain ⟨p, hmem, hk⟩ := h
    exact List.any_eq_true.mpr ⟨p, List.mem_reverse.mpr hmem, hk⟩
  unfold objIndex objSet
  rw [← List.map_reverse, find?_map_objSet fields.reverse key v hrev]
  rfl

theorem objGet_objSet (fields : List (String × JsonVal)) (key : String) (v dflt : JsonVal)
    (h : objHasKey fields key = true) : objGet (objSet fields key v) key dflt = v := by
  unfold objGet
  rw [objIndex_objSet fields key v h]
  rfl

/-! ## Claim C1 -/

theorem parse_evaluation_cases (loads : List Char → Option JsonVal)
    (pyFloat : JsonVal → Option ℚ) (response : List Char) :
    parse_evaluation_response loads pyFloat response = sentinelEval
    ∨ (∃ fields v, objHasKey fields "vote" = true ∧
        parse_evaluation_response loads pyFloat response
          = .obj (objSet fields "vote" (.num (max 1 (min 10 v)))))
    ∨ (∃ result, voteIn result = some false ∧
        parse_evaluation_response loads pyFloat response = result) := by
  by_cases hg : strFind response '{' = -1 ∨ strRfind response '}' + 1 = 0
  · left; simp [parse_evaluation_response, hg]
  · rcases hload : loads (pySlice response (strFind response '{') (strRfind response '}' + 1))
      with _ | result
    · left; simp [parse_evaluation_response, hg, hload]
    · rcases hv : voteIn result with _ | b
      · left; simp [parse_evaluation_response, hg, hload, hv]
      · cases b with
        | false =>
          right; right
          exact ⟨result, hv, by simp [parse_evaluation_response, hg, hload, hv]⟩
        | true =>
          cases result with
          | obj fields =>
            have hk : objHasKey fields "vote" = true := by simpa [voteIn] using hv
            rcases hidx : objIndex fields "vote" with _ | jv
            · left; simp [parse_evaluation_response, hg, hload, hv, hidx]
            · rcases hfl : pyFloat jv with _ | v
              · left; simp [parse_evaluation_response, hg, hload, hv, hidx, hfl]
              · right; left
                exact ⟨fields, v, hk,
                  by simp [parse_evaluation_response, hg, hload, hv, hidx, hfl]⟩
          | null => simp [voteIn] at hv
          | bool b => simp [voteIn] at hv
          | num q => simp [voteIn] at hv
          | str s => left; simp [parse_evaluation_response, hg, hload, hv]
          | arr xs => left; simp [parse_evaluation_response, hg, hload, hv]

/-- Claim C1: every score the scorer can produce is either clamped into
`[1, 10]` or exactly the sentinel `0.0`; a parsed `vote` is clamped with
`max(1.0, min(10.0, vote))`; a reply without parseable JSON yields the
sentinel `0.0` together with the failure rationale. -/
theorem c1_score_range :
    (∀ loads pyFloat backend, ∃ q : ℚ,
      (evaluate_candidate loads pyFloat backend).1 = .num q
        ∧ ((1 ≤ q ∧ q ≤ 10) ∨ q = 0))
    ∧ (∀ loads pyFloat response fields jv v,
        ¬ strFind response '{' = -1 → ¬ strRfind response '}' + 1 = 0 →
        loads (braceSlice response) = some (.obj fields) →
        objIndex fields "vote" = some jv → pyFloat jv = some v →
        (evaluate_candidate loads pyFloat (some response)).1
          = .num (max 1 (min 10 v)))
    ∧ (∀ loads pyFloat response,
        (strFind response '{' = -1 ∨ strRfind response '}' + 1 = 0
          ∨ loads (braceSlice response) = none) →
        evaluate_candidate loads pyFloat (some response)
          = (.num 0, .str "Unable to parse evaluation")) := by
  refine ⟨?_, ?_, ?_⟩
  · intro loads pyFloat backend
    cases backend with
    | none => exact ⟨0, rfl, Or.inr rfl⟩
    | some response =>
      rcases parse_evaluation_cases loads pyFloat response
        with h | ⟨fields, v, hk, h⟩ | ⟨result, hv, h⟩
      · refine ⟨0, ?_, Or.inr rfl⟩
        simp [evaluate_candidate, h, sentinelEval, objGet, objIndex]
      · refine ⟨max 1 (min 10 v), ?_, Or.inl ⟨le_max_left 1 _, ?_⟩⟩
        · simp only [evaluate_candidate, h]
          exact objGet_objSet fields "vote" _ _ hk
        · exact max_le (by norm_num) (min_le_left 10 v)
      · cases result with
        | obj fields =>
          refine ⟨0, ?_, Or.inr rfl⟩
          have hk : objHasKey fields "vote" = false := by
            simpa [voteIn] using hv
          simp [evaluate_candidate, h, objGet,
            objIndex_eq_none_of_not_hasKey fields "vote" hk]
        | null => simp [voteIn] at hv
        | bool b => simp [voteIn] at hv
        | num q => simp [voteIn] at hv
        | str s => exact ⟨0, by simp [evaluate_candidate, h], Or.inr rfl⟩
        | arr xs => exact ⟨0, by simp [evaluate_candidate, h], Or.inr rfl⟩
  · intro loads pyFloat response fields jv v h1 h2 hload hidx hfl
    have hk : objHasKey fields "vote" = true := objHasKey_of_objIndex fields "vote" jv hidx
    simp only [braceSlice] at hload
    have hg : ¬ (strFind response '{' = -1 ∨ strRfind response '}' + 1 = 0) := by
      intro h; exact h.elim h1 h2
    have hp : parse_evaluation_response loads pyFloat response
        = .obj (objSet fields "vote" (.num (max 1 (min 10 v)))) := by
      simp [parse_evaluation_response, hg, hload, voteIn, hk, hidx, hfl]
    simp only [evaluate_candidate, hp]
    exact objGet_objSet fields "vote" _ _ hk
  · intro loads pyFloat response h
    have hp : parse_evaluation_response loads pyFloat response = sentinelEval := by
      rcases h with h | h | h
      · simp [parse_evaluation_response, h]
      · simp [parse_evaluation_response, h]
      · simp only [braceSlice] at h
        by_cases hg : strFind response '{' = -1 ∨ strRfind response '}' + 1 = 0
        · simp [parse_evaluation_response, hg]
        · simp [parse_evaluation_response, hg, h]
    simp [evaluate_candidate, hp, sentinelEval, objGet, objIndex]

/-- Closed witness for `c1_score_range`: the Example-3 reply
`vote = 13, consideration = "great fit"` is clamped to `10.0`. -/
theorem c1_score_range_witness :
    (¬ strFind "\x7bx\x7d".toList '{' = -1)
    ∧ (¬ strRfind "\x7bx\x7d".toList '}' + 1 = 0)
    ∧ (evaluate_candidate
        (fun _ => some (.obj [("vote", .num 13), ("consideration", .str "great fit")]))
        (fun v => match v with | .num q => some q | _ => none)
        (some "\x7bx\x7d".toList)).1 = .num (max 1 (min 10 13)) :=
  ⟨by decide, by decide,
    c1_score_range.2.1
      (fun _ => some (.obj [("vote", .num 13), ("consideration", .str "great fit")]))
      (fun v => match v with | .num q => some q | _ => none)
      "\x7bx\x7d".toList
      [("vote", .num 13), ("consideration", .str "great fit")]
      (.num 13) 13 (by decide) (by decide) rfl rfl rfl⟩

/-! ## Claim C8 -/

/-- Claim C8: `extract_qualifications` (and likewise `extract_personal_data`)
is total — it never propagates an error — and on every parsing failure
(backend exception, reply without a brace-delimited region, `json.loads`
failure, or a non-dict JSON value) it returns the record with every field set
to `None`, so the pipeline continues. -/
theorem c8_extraction_failures_default :
    (∀ loads, extract_qualifications loads none = defaultQuals)
    ∧ (∀ loads response,
        (strFind response '{' = -1 ∨ strRfind response '}' + 1 = 0) →
        extract_qualifications loads (some response) = defaultQuals)
    ∧ (∀ loads response, loads (braceSlice response) = none →
        extract_qualifications loads (some response) = defaultQuals)
    ∧ (∀ loads response v, loads (braceSlice response) = some v →
        (∀ fields, ¬ v = JsonVal.obj fields) →
        extract_qualifications loads (some response) = defaultQuals)
    ∧ (∀ loads, extract_personal_data loads none = defaultPersonal)
    ∧ (∀ loads response,
        (strFind response '{' = -1 ∨ strRfind response '}' + 1 = 0) →
        extract_personal_data loads (some response) = defaultPersonal)
    ∧ (∀ loads response, loads (braceSlice response) = none →
        extract_personal_data loads (some response) = defaultPersonal) := by
  refine ⟨fun loads => rfl, ?_, ?_, ?_, fun loads => rfl, ?_, ?_⟩
  · intro loads response h
    rcases h with h | h <;>
      simp [extract_qualifications, parse_qualifications_response, h]
  · intro loads response h
    simp only [braceSlice] at h
    by_cases hg : strFind response '{' = -1 ∨ strRfind response '}' + 1 = 0
    · rcases hg with hg | hg <;>
        simp [extract_qualifications, parse_qualifications_response, hg]
    · simp [extract_qualifications, parse_qualifications_response, hg, h]
  · intro loads response v hload hne
    simp only [braceSlice] at hload
    by_cases hg : strFind response '{' = -1 ∨ strRfind response '}' + 1 = 0
    · rcases hg with hg | hg <;>
        simp [extract_qualifications, parse_qualifications_response, hg]
    · cases v with
      | obj fields => exact absurd rfl (hne fields)
      | null => simp [extract_qualifications, parse_qualifications_response, hg, hload]
      | bool b => simp [extract_qualifications, parse_qualifications_response, hg, hload]
      | num q => simp [extract_qualifications, parse_qualifications_response, hg, hload]
      | str s => simp [extract_qualifications, parse_qualifications_response, hg, hload]
      | arr xs => simp [extract_qualifications, parse_qualifications_response, hg, hload]
  · intro loads response h
    rcases h with h | h <;>
      simp [extract_personal_data, parse_personal_data_response, h]
  · intro loads response h
    simp only [braceSlice] at h
    by_cases hg : strFind response '{' = -1 ∨ strRfind response '}' + 1 = 0
    · rcases hg with hg | hg <;>
        simp [extract_personal_data, parse_personal_data_response, hg]
    · simp [extract_personal_data, parse_personal_data_response, hg, h]

/-- Closed witness for `c8_extraction_failures_default`: the Example-2 reply
`"I cannot help with that"` (no JSON anywhere) yields the all-`None` record. -/
theorem c8_extraction_failures_default_witness :
    (strFind "I cannot help with that".toList '{' = -1
      ∨ strRfind "I cannot help with that".toList '}' + 1 = 0)
    ∧ extract_qualifications (fun _ => none)
        (some "I cannot help with that".toList) = defaultQuals :=
  ⟨Or.inl (by decide),
    c8_extraction_failures_default.2.1 (fun _ => none)
      "I cannot help with that".toList (Or.inl (by decide))⟩

/-! ## Claim C3 -/

theorem joinSep_ne_nil (p : List Char) (ps : List (List Char)) (hp : p ≠ []) :
    joinSep (p :: ps) ≠ [] := by
  cases ps with
  | nil => simpa [joinSep] using hp
  | cons q rest =>
    simp only [joinSep]
    intro hcontra
    rcases List.append_eq_nil.mp (List.append_eq_nil.mp hcontra).1 with ⟨h1, _⟩
    exact hp h1

/-- Counterexample to claim C3: when the pdfplumber pass succeeds but yields
no text and the PyPDF2 fallback also succeeds with no text, the extractor
returns the empty string as a SUCCESS, contradicting the claim that absence
of text is always reported as an extraction error. -/
theorem c3_counterexample :
    ¬ (∀ plumber pypdf,
        (∃ t, extract_text_from_pdf plumber pypdf = .ok t ∧ t ≠ [])
        ∨ (∃ msg, extract_text_from_pdf plumber pypdf = .error msg)) := by
  intro h
  have hval : extract_text_from_pdf (some []) (some []) = .ok [] := rfl
  rcases h (some []) (some []) with ⟨t, ht, hne⟩ | ⟨msg, hmsg⟩
  · rw [hval] at ht
    exact hne (Except.ok.injEq _ _ ▸ ht).symm
  · rw [hval] at hmsg
    exact Except.noConfusion hmsg

/-- Amended claim C3: the extractor returns non-empty text whenever the
primary (pdfplumber) pass yields any page text; when the primary pass raises
or yields no text it returns the fallback's joined text — which may be the
EMPTY string reported as success — and it fails with the extraction error
only when the fallback itself raises. -/
theorem c3_amended :
    (∀ pages pypdf, pages.filter (fun t => !t.isEmpty) ≠ [] →
      extract_text_from_pdf (some pages) pypdf
        = .ok (joinSep (pages.filter (fun t => !t.isEmpty)))
      ∧ joinSep (pages.filter (fun t => !t.isEmpty)) ≠ [])
    ∧ (∀ pypdfPages, extract_text_from_pdf none (some pypdfPages)
        = .ok (joinSep (pypdfPages.filter (fun t => !t.isEmpty))))
    ∧ (∀ pages pypdfPages, pages.filter (fun t => !t.isEmpty) = [] →
      extract_text_from_pdf (some pages) (some pypdfPages)
        = .ok (joinSep (pypdfPages.filter (fun t => !t.isEmpty))))
    ∧ (extract_text_from_pdf none none = .error "Failed to extract text from PDF")
    ∧ (∀ pages, pages.filter (fun t => !t.isEmpty) = [] →
      extract_text_from_pdf (some pages) none
        = .error "Failed to extract text from PDF") := by
  refine ⟨?_, fun pypdfPages => rfl, ?_, rfl, ?_⟩
  · intro pages pypdf hne
    rcases hfil : pages.filter (fun t => !t.isEmpty) with _ | ⟨p, ps⟩
    · exact absurd hfil hne
    · constructor
      · simp [extract_text_from_pdf, hfil]
      · have hmem : p ∈ pages.filter (fun t => !t.isEmpty) := by
          rw [hfil]; exact List.mem_cons_self p ps
        have hpne : p ≠ [] := by
          have := List.of_mem_filter hmem
          simpa [List.isEmpty_iff] using this
        rw [hfil]
        exact joinSep_ne_nil p ps hpne
  · intro pages pypdfPages hfil
    simp [extract_text_from_pdf, hfil]
  · intro pages hfil
    simp [extract_text_from_pdf, hfil]

/-- Closed witness for `c3_amended`: a one-page document with text `"cv"`
extracts to the non-empty `"cv"`. -/
theorem c3_amended_witness :
    ["cv".toList].filter (fun t => !t.isEmpty) ≠ []
    ∧ (extract_text_from_pdf (some ["cv".toList]) none
        = .ok (joinSep (["cv".toList].filter (fun t => !t.isEmpty)))
      ∧ joinSep (["cv".toList].filter (fun t => !t.isEmpty)) ≠ []) :=
  ⟨by decide, c3_amended.1 ["cv".toList] none (by decide)⟩

/-! ## Helper lemmas about the store model -/

theorem find?_replace_by_id (l : List AppRecord) (idv i : ℕ) (x a : AppRecord)
    (h : l.find? (fun y => y.id == idv) = some a)
    (hai : a.id = i) (hxidv : x.id = idv) :
    (l.map (fun y => if y.id == i then x else y)).find?
      (fun y => y.id == idv) = some x := by
  induction l with
  | nil => simp at h
  | cons y rest ih =>
    by_cases hy : (y.id == idv) = true
    · have hstep : List.find? (fun z => z.id == idv) (y :: rest) = some y :=
        List.find?_cons_of_pos _ hy
      rw [hstep] at h
      have hay : a = y := (Option.some.injEq _ _).mp h.symm
      have hyi : (y.id == i) = true := by
        rw [← hay, hai]; simp
      rw [List.map_cons, if_pos hyi]
      exact List.find?_cons_of_pos _ (by rw [hxidv]; simp)
    · rw [List.map_cons]
      by_cases hyi : (y.id == i) = true
      · rw [if_pos hyi]
        exact List.find?_cons_of_pos _ (by rw [hxidv]; simp)
      · rw [if_neg hyi]
        have hstep : List.find? (fun z => z.id == idv) (y :: rest)
            = List.find? (fun z => z.id == idv) rest := List.find?_cons_of_neg _ hy
        rw [hstep] at h
        have hstep2 : List.find? (fun z => z.id == idv)
              (y :: (rest.map (fun z => if z.id == i then x else z)))
            = List.find? (fun z => z.id == idv)
              (rest.map (fun z => if z.id == i then x else z)) :=
          List.find?_cons_of_neg _ hy
        rw [hstep2]
        exact ih h

theorem find?_replace_eval (l : List EvalRecord) (idv : ℕ) (e e' : EvalRecord)
    (h : l.find? (fun y => y.application_id == idv) = some e)
    (he' : (e'.application_id == idv) = true) :
    (l.map (fun y => if y.id == e.id then e' else y)).find?
      (fun y => y.application_id == idv) = some e' := by
  induction l with
  | nil => simp at h
  | cons y rest ih =>
    by_cases hy : (y.application_id == idv) = true
    · have hstep : List.find? (fun z => z.application_id == idv) (y :: rest) = some y :=
        List.find?_cons_of_pos _ hy
      rw [hstep] at h
      have hey : e = y := (Option.some.injEq _ _).mp h.symm
      have hcl : (y.id == e.id) = true := by rw [hey]; simp
      rw [List.map_cons, if_pos hcl]
      exact List.find?_cons_of_pos _ he'
    · have hstep : List.find? (fun z => z.application_id == idv) (y :: rest)
          = List.find? (fun z => z.application_id == idv) rest :=
        List.find?_cons_of_neg _ hy
      rw [hstep] at h
      rw [List.map_cons]
      by_cases hcl : (y.id == e.id) = true
      · rw [if_pos hcl]
        exact List.find?_cons_of_pos _ he'
      · rw [if_neg hcl]
        have hstep2 : List.find? (fun z => z.application_id == idv)
              (y :: (rest.map (fun z => if z.id == e.id then e' else z)))
            = List.find? (fun z => z.application_id == idv)
              (rest.map (fun z => if z.id == e.id then e' else z)) :=
          List.find?_cons_of_neg _ hy
        rw [hstep2]
        exact ih h

theorem find?_append_right_eval (l : List EvalRecord) (idv : ℕ) (e : EvalRecord)
    (h : l.find? (fun y => y.application_id == idv) = none)
    (he : (e.application_id == idv) = true) :
    (l ++ [e]).find? (fun y => y.application_id == idv) = some e := by
  rw [List.find?_append, h]
  simp only [Option.none_or]
  exact List.find?_cons_of_pos _ he

theorem map_replace_of_no_clash {α : Type} (key : α → ℕ) (l : List α) (i : ℕ) (x : α)
    (h : ∀ y ∈ l, ¬ key y = i) :
    l.map (fun y => if key y == i then x else y) = l := by
  have hcong : ∀ y ∈ l, (fun y => if key y == i then x else y) y = (fun y => y) y := by
    intro y hy
    simp only []
    exact if_neg (by simpa using h y hy)
  rw [List.map_congr_left hcong, List.map_id']

/-- The application record as the pipeline leaves it: extracted fields merged
(the AI phone only over a falsy stored phone), `processed_at` stamped, and the
final status. -/
def mergedApp (env : RunEnv) (a : AppRecord) (st : String) : AppRecord :=
  { a with
    city := env.personal.city
    birthdate := env.personal.birthdate
    phone := if !a.phone.truthy && env.personal.telephone.truthy
      then env.personal.telephone else a.phone
    educational_qualification := env.quals.educational_qualification
    job_history := env.quals.job_history
    skills := env.quals.skills
    processed_at := some env.now
    application_status := st }

/-- Characterization of one pipeline run on an existing application with
truthy CV text: the stored application becomes `mergedApp` with final status
`failed` (for an unhandled exception in steps 3–9, which also re-raises) or
`evaluated` (otherwise, including export failures, which never raise), and the
committed status trace is `processing` followed by the final status (twice
when the export path commits its tracking flags). -/
theorem run_effect_app (env : RunEnv) (idv : ℕ) (db : DB) (a : AppRecord)
    (ha : appOf db idv = some a)
    (hcv : truthyOptStr a.cv_text_content = true) :
    ((env.crash = some .atSteps ∨ env.crash = some .atFinalCommit) →
      appOf (process_application_async env idv db).db idv = some (mergedApp env a "failed")
      ∧ (process_application_async env idv db).raised = true
      ∧ (process_application_async env idv db).trace = ["processing", "failed"])
    ∧ (¬ (env.crash = some .atSteps ∨ env.crash = some .atFinalCommit) →
      appOf (process_application_async env idv db).db idv = some (mergedApp env a "evaluated")
      ∧ (process_application_async env idv db).raised = false
      ∧ ((process_application_async env idv db).trace = ["processing", "evaluated"]
        ∨ (process_application_async env idv db).trace
            = ["processing", "evaluated", "evaluated"])) := by
  simp only [appOf] at ha
  have hp := List.find?_some ha
  have haid : a.id = idv := by simpa using hp
  constructor
  · intro hcrash
    rcases hcrash with hcr | hcr
    · simp only [process_application_async, ha, hcv, hcr, failRun, commitSess, appOf,
        mergedApp, Bool.not_true, Bool.false_eq_true, if_false, if_true, eq_self_iff_true,
        reduceCtorEq, Option.some.injEq, List.cons_append, List.nil_append]
      refine ⟨?_, trivial, trivial⟩
      refine find?_replace_by_id _ idv a.id _ _
        (find?_replace_by_id _ idv a.id _ a ha rfl haid) rfl haid
    · rcases hev : db.evaluations.find? (fun e => e.application_id == idv) with _ | e <;>
      · simp only [process_application_async, ha, hcv, hcr, hev, failRun, commitSess, appOf,
          mergedApp, Bool.not_true, Bool.false_eq_true, if_false, if_true, eq_self_iff_true,
          reduceCtorEq, Option.some.injEq, List.cons_append, List.nil_append]
        refine ⟨?_, trivial, trivial⟩
        refine find?_replace_by_id _ idv a.id _ _
          (find?_replace_by_id _ idv a.id _ a ha rfl haid) rfl haid
  · intro hcrash
    have hc1 : ¬ env.crash = some .atSteps := fun h => hcrash (Or.inl h)
    have hc2 : ¬ env.crash = some .atFinalCommit := fun h => hcrash (Or.inr h)
    by_cases hres : (env.resultsUrl && env.sheetsAvailable) = true
    · by_cases hcx : env.crash = some .atExport
      · rcases hev : db.evaluations.find? (fun e => e.application_id == idv) with _ | e <;>
        · simp only [process_application_async, ha, hcv, hc1, hc2, hres, hcx, hev, commitSess,
            appOf, mergedApp, Bool.not_true, Bool.false_eq_true, if_false, if_true,
            eq_self_iff_true, reduceCtorEq, Option.some.injEq, List.cons_append, List.nil_append]
          refine ⟨?_, trivial, Or.inl trivial⟩
          refine find?_replace_by_id _ idv a.id _ _
            (find?_replace_by_id _ idv a.id _ a ha rfl haid) rfl haid
      · rcases hexp : env.exportOutcome with u | rowId
        · rcases hev : db.evaluations.find? (fun e => e.application_id == idv) with _ | e <;>
          · simp only [process_application_async, ha, hcv, hc1, hc2, hres, hcx, hexp, hev,
              commitSess, appOf, mergedApp, Bool.not_true, Bool.false_eq_true, if_false,
              if_true, eq_self_iff_true, reduceCtorEq, Option.some.injEq, List.cons_append, List.nil_append]
            refine ⟨?_, trivial, Or.inl trivial⟩
            refine find?_replace_by_id _ idv a.id _ _
              (find?_replace_by_id _ idv a.id _ a ha rfl haid) rfl haid
        · by_cases hrow : rowId = ""
          · rcases hev : db.evaluations.find? (fun e => e.application_id == idv) with _ | e <;>
            · simp only [process_application_async, ha, hcv, hc1, hc2, hres, hcx, hexp, hrow,
                hev, commitSess, appOf, mergedApp, Bool.not_true, Bool.false_eq_true, if_false,
                if_true, eq_self_iff_true, reduceCtorEq, Option.some.injEq, List.cons_append, List.nil_append,
                ne_eq, not_true_eq_false]
              refine ⟨?_, trivial, Or.inl trivial⟩
              refine find?_replace_by_id _ idv a.id _ _
                (find?_replace_by_id _ idv a.id _ a ha rfl haid) rfl haid
          · rcases hev : db.evaluations.find? (fun e => e.application_id == idv) with _ | e <;>
            · simp only [process_application_async, ha, hcv, hc1, hc2, hres, hcx, hexp, hrow,
                hev, commitSess, appOf, mergedApp, Bool.not_true, Bool.false_eq_true, if_false,
                if_true, eq_self_iff_true, reduceCtorEq, Option.some.injEq, List.cons_append, List.nil_append,
                ne_eq, not_false_eq_true]
              refine ⟨?_, trivial, Or.inr trivial⟩
              refine find?_replace_by_id _ idv a.id _ _
                (find?_replace_by_id _ idv a.id _ _
                  (find?_replace_by_id _ idv a.id _ a ha rfl haid) rfl haid) rfl haid
    · rcases hev : db.evaluations.find? (fun e => e.application_id == idv) with _ | e <;>
      · simp only [process_application_async, ha, hcv, hc1, hc2, hres, hev, commitSess, appOf,
          mergedApp, Bool.not_true, Bool.false_eq_true, if_false, if_true, eq_self_iff_true,
          reduceCtorEq, Option.some.injEq, List.cons_append, List.nil_append]
        refine ⟨?_, trivial, Or.inl trivial⟩
        refine find?_replace_by_id _ idv a.id _ _
          (find?_replace_by_id _ idv a.id _ a ha rfl haid) rfl haid

/-- A run on a missing application, or one whose stored CV text is falsy,
is a complete no-op: unchanged store, no raise, no commits. -/
theorem run_noop (env : RunEnv) (idv : ℕ) (db : DB) :
    (appOf db idv = none → process_application_async env idv db = ⟨db, false, []⟩)
    ∧ (∀ a, appOf db idv = some a → truthyOptStr a.cv_text_content = false →
        process_application_async env idv db = ⟨db, false, []⟩) := by
  constructor
  · intro h
    simp only [appOf] at h
    simp [process_application_async, h]
  · intro a h hcv
    simp only [appOf] at h
    simp [process_application_async, h, hcv]

theorem map_map_replace (l : List EvalRecord) (i : ℕ) (e1 e2 : EvalRecord)
    (h1 : e1.id = i) :
    (l.map (fun x => if x.id == i then e1 else x)).map
        (fun x => if x.id == i then e2 else x)
      = l.map (fun x => if x.id == i then e2 else x) := by
  rw [List.map_map]
  apply List.map_congr_left
  intro x _
  simp only [Function.comp]
  by_cases hxi : (x.id == i) = true
  · rw [if_pos hxi, if_pos hxi, if_pos (by rw [h1]; simp)]
  · simp only [if_neg hxi]

/-- Effect of a crash-free run on the evaluation table when no evaluation
exists yet for the application: exactly one new row is appended, carrying the
run's AI outputs, fresh human-review defaults, and the resolved requirements;
only the export-tracking flags depend on the export branch. -/
theorem run_eval_create (env : RunEnv) (idv : ℕ) (db : DB) (a : AppRecord)
    (ha : appOf db idv = some a) (hcv : truthyOptStr a.cv_text_content = true)
    (hc : env.crash = none) (h0 : evalOf db idv = none)
    (hfresh : ∀ x ∈ db.evaluations, ¬ x.id = db.nextEvalId) :
    ∃ ex rid, (process_application_async env idv db).db.evaluations
      = db.evaluations ++
        [{ id := db.nextEvalId, application_id := idv
           candidate_summary := env.summary, ai_score := env.score.1
           ai_considerations := env.score.2
           job_profile_requirements := resolveProfileRequirements env db a
           alignment_analysis := none, hr_reviewed := false, hr_score := none
           hr_notes := none, hr_decision := none, evaluation_status := "completed"
           evaluated_at := some env.now, evaluated_by := none
           exported_to_sheets := ex, sheets_row_id := rid }] := by
  simp only [appOf] at ha
  simp only [evalOf] at h0
  by_cases hres : (env.resultsUrl && env.sheetsAvailable) = true
  · rcases hexp : env.exportOutcome with u | rowId
    · refine ⟨false, none, ?_⟩
      simp [process_application_async, ha, hcv, hc, hres, hexp, h0, commitSess, failRun]
      rfl
    · by_cases hrow : rowId = ""
      · refine ⟨false, none, ?_⟩
        simp [process_application_async, ha, hcv, hc, hres, hexp, hrow, h0, commitSess,
          failRun]
        rfl
      · refine ⟨true, some rowId, ?_⟩
        simp only [process_application_async, ha, hcv, hc, hres, hexp, hrow, h0, commitSess,
          failRun, Bool.not_true, Bool.false_eq_true, if_false, if_true, eq_self_iff_true,
          reduceCtorEq, Option.some.injEq, ne_eq, not_false_eq_true, Option.map_some']
        rw [List.map_append]
        rw [map_replace_of_no_clash (fun y : EvalRecord => y.id) db.evaluations
          db.nextEvalId _ hfresh]
        simp
        rfl
  · refine ⟨false, none, ?_⟩
    simp [process_application_async, ha, hcv, hc, hres, h0, commitSess, failRun]
    rfl

/-- Effect of a crash-free run on the evaluation table when an evaluation for
the application already exists: the first matching row is updated in place —
only the AI-derived fields, the resolved requirements, `evaluation_status` and
`evaluated_at` are overwritten (plus the export-tracking flags when the export
branch runs); every other field, including the human-review fields and
`application_id`, is carried over from the old row. -/
theorem run_eval_update (env : RunEnv) (idv : ℕ) (db : DB) (a : AppRecord) (e : EvalRecord)
    (ha : appOf db idv = some a) (hcv : truthyOptStr a.cv_text_content = true)
    (hc : env.crash = none) (he : evalOf db idv = some e) :
    ∃ ex rid, (process_application_async env idv db).db.evaluations
      = db.evaluations.map (fun x => if x.id == e.id then
          { e with
            candidate_summary := env.summary
            ai_score := env.score.1
            ai_considerations := env.score.2
            job_profile_requirements := resolveProfileRequirements env db a
            evaluation_status := "completed"
            evaluated_at := some env.now
            exported_to_sheets := ex
            sheets_row_id := rid } else x) := by
  simp only [appOf] at ha
  simp only [evalOf] at he
  by_cases hres : (env.resultsUrl && env.sheetsAvailable) = true
  · rcases hexp : env.exportOutcome with u | rowId
    · refine ⟨e.exported_to_sheets, e.sheets_row_id, ?_⟩
      simp [process_application_async, ha, hcv, hc, hres, hexp, he, commitSess, failRun]
      exact fun x hx => rfl
    · by_cases hrow : rowId = ""
      · refine ⟨e.exported_to_sheets, e.sheets_row_id, ?_⟩
        simp [process_application_async, ha, hcv, hc, hres, hexp, hrow, he, commitSess,
          failRun]
        exact fun x hx => rfl
      · refine ⟨true, some rowId, ?_⟩
        simp only [process_application_async, ha, hcv, hc, hres, hexp, hrow, he, commitSess,
          failRun, Bool.not_true, Bool.false_eq_true, if_false, if_true, eq_self_iff_true,
          reduceCtorEq, Option.some.injEq, ne_eq, not_false_eq_true, Option.map_some']
        exact map_map_replace db.evaluations e.id _ _ rfl
  · refine ⟨e.exported_to_sheets, e.sheets_row_id, ?_⟩
    simp [process_application_async, ha, hcv, hc, hres, he, commitSess, failRun]
    exact fun x hx => rfl

/-! ## Claim C2 -/

theorem allowed_trace (init st : String) (hst : st = "failed" ∨ st = "evaluated")
    (p : String × String)
    (hp : p ∈ transitionsOf init ["processing", st]
      ∨ p ∈ transitionsOf init ["processing", st, st]) :
    allowedTransition p = true := by
  rcases hp with hp | hp
  · simp only [transitionsOf, adjacentPairs, List.mem_filter, List.mem_cons,
      List.not_mem_nil, or_false] at hp
    obtain ⟨hmem, _⟩ := hp
    rcases hmem with rfl | rfl
    · simp [allowedTransition]
    · rcases hst with rfl | rfl <;> simp [allowedTransition]
  · simp only [transitionsOf, adjacentPairs, List.mem_filter, List.mem_cons,
      List.not_mem_nil, or_false] at hp
    obtain ⟨hmem, hne⟩ := hp
    rcases hmem with rfl | rfl | rfl
    · simp [allowedTransition]
    · rcases hst with rfl | rfl <;> simp [allowedTransition]
    · simp at hne

/-- Amended claim C2: every status transition the pipeline can commit — via a
direct run or via the reprocess endpoint — is of the form `X → processing`
(for ANY current status `X`, since reprocess has no status guard),
`processing → evaluated`, or `processing → failed`.  The spec's claimed
relation additionally forbids `evaluated → processing`, which the code
permits. -/
theorem c2_transitions_amended :
    ∀ (env : RunEnv) (idv : ℕ) (db : DB) (p : String × String),
      (p ∈ transitionsOf (statusOf db idv) (process_application_async env idv db).trace
        ∨ p ∈ transitionsOf (statusOf db idv) (reprocess_application env idv db).trace) →
      allowedTransition p = true := by
  intro env idv db p hp
  have hmain : ∀ q, q ∈ transitionsOf (statusOf db idv)
      (process_application_async env idv db).trace → allowedTransition q = true := by
    intro q hq
    rcases ha : appOf db idv with _ | a
    · rw [(run_noop env idv db).1 ha] at hq
      simp [transitionsOf, adjacentPairs] at hq
    · by_cases hcv : truthyOptStr a.cv_text_content = true
      · rcases em (env.crash = some .atSteps ∨ env.crash = some .atFinalCommit)
          with hcr | hcr
        · have h := (run_effect_app env idv db a ha hcv).1 hcr
          rw [h.2.2] at hq
          exact allowed_trace _ "failed" (Or.inl rfl) q (Or.inl hq)
        · have h := (run_effect_app env idv db a ha hcv).2 hcr
          rcases h.2.2 with htr | htr <;> rw [htr] at hq
          · exact allowed_trace _ "evaluated" (Or.inr rfl) q (Or.inl hq)
          · exact allowed_trace _ "evaluated" (Or.inr rfl) q (Or.inr hq)
      · have hcv' : truthyOptStr a.cv_text_content = false := by simpa using hcv
        rw [(run_noop env idv db).2 a ha hcv'] at hq
        simp [transitionsOf, adjacentPairs] at hq
  rcases hp with hp | hp
  · exact hmain p hp
  · have htr : (reprocess_application env idv db).trace = []
        ∨ (reprocess_application env idv db).trace
          = (process_application_async env idv db).trace := by
      unfold reprocess_application
      rcases h : db.applications.find? (fun a => a.id == idv) with _ | a
      · left; simp [h]
      · rcases hr : (process_application_async env idv db).raised with _ | _ <;>
          simp [h, hr]
    rcases htr with htr | htr
    · rw [htr] at hp
      simp [transitionsOf, adjacentPairs] at hp
    · rw [htr] at hp
      exact hmain p hp

/-- The store after submitting and evaluating one application: its status is
`evaluated`. -/
def dbC2 : DB :=
  (process_application_async envA 1 dbA).db

/-- Counterexample to claim C2 as stated: reprocessing an application whose
status is `evaluated` commits the transition `evaluated → processing`, which
the spec's claimed transition relation forbids (reprocess has no guard on the
current status). -/
theorem c2_transitions_counterexample :
    statusOf dbC2 1 = "evaluated"
    ∧ ("evaluated", "processing")
        ∈ transitionsOf (statusOf dbC2 1) (reprocess_application envA 1 dbC2).trace
    ∧ claimedTransition ("evaluated", "processing") = false := by
  refine ⟨by decide, by decide, by decide⟩

/-- Closed witness for `c2_transitions_amended`: the submitted-to-processing
transition of a fresh run is allowed. -/
theorem c2_transitions_amended_witness :
    (("submitted", "processing")
        ∈ transitionsOf (statusOf dbA 1) (process_application_async envA 1 dbA).trace)
    ∧ allowedTransition ("submitted", "processing") = true :=
  ⟨by decide, c2_transitions_amended envA 1 dbA ("submitted", "processing")
    (Or.inl (by decide))⟩

/-! ## Claim C4 -/

/-- Claim C4: a truthy phone number stored at submission time survives every
pipeline run unchanged; and whenever a run does change the stored phone, the
old value was falsy, the AI-extracted telephone was truthy, and the new value
is exactly the AI-extracted telephone. -/
theorem c4_phone_never_overwritten (env : RunEnv) (idv : ℕ) (db : DB) (a : AppRecord)
    (ha : appOf db idv = some a) :
    (a.phone.truthy = true →
      ((appOf (process_application_async env idv db).db idv).map (fun x => x.phone))
        = some a.phone)
    ∧ (∀ x, appOf (process_application_async env idv db).db idv = some x →
        ¬ x.phone = a.phone →
        a.phone.truthy = false ∧ env.personal.telephone.truthy = true
          ∧ x.phone = env.personal.telephone) := by
  by_cases hcv : truthyOptStr a.cv_text_content = true
  · have hboth : appOf (process_application_async env idv db).db idv
        = some (mergedApp env a "failed")
        ∨ appOf (process_application_async env idv db).db idv
          = some (mergedApp env a "evaluated") := by
      rcases em (env.crash = some .atSteps ∨ env.crash = some .atFinalCommit)
        with hcr | hcr
      · exact Or.inl ((run_effect_app env idv db a ha hcv).1 hcr).1
      · exact Or.inr ((run_effect_app env idv db a ha hcv).2 hcr).1
    constructor
    · intro hph
      rcases hboth with h | h <;> rw [h] <;> simp [mergedApp, hph]
    · intro x hx hne
      have hxm : x = mergedApp env a "failed" ∨ x = mergedApp env a "evaluated" := by
        rcases hboth with h | h <;> rw [h] at hx
        · exact Or.inl (Option.some.inj hx).symm
        · exact Or.inr (Option.some.inj hx).symm
      have hphone : x.phone = if (!a.phone.truthy && env.personal.telephone.truthy) = true
          then env.personal.telephone else a.phone := by
        rcases hxm with rfl | rfl <;> rfl
      by_cases hcond : (!a.phone.truthy && env.personal.telephone.truthy) = true
      · rw [hphone, if_pos hcond]
        obtain ⟨h1, h2⟩ := Bool.and_eq_true_iff.mp hcond
        exact ⟨by simpa using h1, h2, rfl⟩
      · rw [hphone, if_neg hcond] at hne
        exact absurd rfl hne
  · have hcv' : truthyOptStr a.cv_text_content = false := by simpa using hcv
    have h := (run_noop env idv db).2 a ha hcv'
    rw [h]
    exact ⟨fun _ => by rw [ha]; rfl, fun x hx hne => by
      rw [ha] at hx
      exact absurd (congrArg (fun y => y.phone) (Option.some.inj hx).symm) hne⟩

/-- Closed witness for `c4_phone_never_overwritten`: the declared phone
`"555"` survives a full successful run. -/
theorem c4_phone_never_overwritten_witness :
    appOf dbA 1 = some appA
    ∧ appA.phone.truthy = true
    ∧ ((appOf (process_application_async envA 1 dbA).db 1).map (fun x => x.phone))
        = some appA.phone :=
  ⟨rfl, rfl, (c4_phone_never_overwritten envA 1 dbA appA rfl).1 rfl⟩

/-! ## Claim C9 -/

/-- Claim C9: an unhandled exception in steps 3–9 makes the run re-raise after
committing status `failed`; a failure of (or crash inside) the best-effort
spreadsheet export is swallowed — the run does not raise and the status stays
`evaluated`. -/
theorem c9_failure_vs_export (env : RunEnv) (idv : ℕ) (db : DB) (a : AppRecord)
    (ha : appOf db idv = some a) (hcv : truthyOptStr a.cv_text_content = true) :
    ((env.crash = some .atSteps ∨ env.crash = some .atFinalCommit) →
      (process_application_async env idv db).raised = true
      ∧ ((appOf (process_application_async env idv db).db idv).map
          (fun x => x.application_status)) = some "failed")
    ∧ ((env.crash = some .atExport
        ∨ (env.crash = none ∧ ∃ u, env.exportOutcome = Except.error u)) →
      (process_application_async env idv db).raised = false
      ∧ ((appOf (process_application_async env idv db).db idv).map
          (fun x => x.application_status)) = some "evaluated") := by
  constructor
  · intro hcr
    have h := (run_effect_app env idv db a ha hcv).1 hcr
    exact ⟨h.2.1, by rw [h.1]; rfl⟩
  · intro hcr
    have hneg : ¬ (env.crash = some .atSteps ∨ env.crash = some .atFinalCommit) := by
      rcases hcr with hx | ⟨hx, _⟩ <;> rw [hx] <;> rintro (h | h) <;> simp at h
    have h := (run_effect_app env idv db a ha hcv).2 hneg
    exact ⟨h.2.1, by rw [h.1]; rfl⟩

/-- Environment whose final commit raises. -/
def envFinalCrash : RunEnv :=
  { envA with crash := some .atFinalCommit }

/-- Environment with the export configured but failing. -/
def envExportFail : RunEnv :=
  { envA with
    resultsUrl := true
    sheetsAvailable := true
    exportOutcome := .error () }

/-- Closed witness for `c9_failure_vs_export`: a crash at the final commit
re-raises with status `failed`; a failing export is swallowed with status
`evaluated`. -/
theorem c9_failure_vs_export_witness :
    appOf dbA 1 = some appA
    ∧ truthyOptStr appA.cv_text_content = true
    ∧ ((process_application_async envFinalCrash 1 dbA).raised = true
      ∧ ((appOf (process_application_async envFinalCrash 1 dbA).db 1).map
          (fun x => x.application_status)) = some "failed")
    ∧ ((process_application_async envExportFail 1 dbA).raised = false
      ∧ ((appOf (process_application_async envExportFail 1 dbA).db 1).map
          (fun x => x.application_status)) = some "evaluated") :=
  ⟨rfl, rfl,
    (c9_failure_vs_export envFinalCrash 1 dbA appA rfl rfl).1 (Or.inr rfl),
    (c9_failure_vs_export envExportFail 1 dbA appA rfl rfl).2
      (Or.inr ⟨rfl, ⟨(), rfl⟩⟩)⟩

/-! ## Claim C10 -/

/-- Claim C10: a run on a missing application, or on one whose stored CV text
is absent or empty, is a silent no-op — no status change, no field writes, no
evaluation row, no exception — and the reprocess endpoint reports success for
the empty-CV case. -/
theorem c10_silent_noop (env : RunEnv) (idv : ℕ) (db : DB) :
    (appOf db idv = none → process_application_async env idv db = ⟨db, false, []⟩)
    ∧ (∀ a, appOf db idv = some a → truthyOptStr a.cv_text_content = false →
        process_application_async env idv db = ⟨db, false, []⟩
        ∧ reprocess_application env idv db = ⟨.success, db, []⟩) := by
  refine ⟨(run_noop env idv db).1, ?_⟩
  intro a ha hcv
  have h := (run_noop env idv db).2 a ha hcv
  refine ⟨h, ?_⟩
  unfold reprocess_application
  simp only [appOf] at ha
  simp [ha, h]

/-- Application with an empty extracted CV text. -/
def appEmptyCv : AppRecord :=
  { appA with cv_text_content := some "" }

/-- Store holding only `appEmptyCv`. -/
def dbEmptyCv : DB :=
  { dbA with applications := [appEmptyCv] }

/-- Closed witness for `c10_silent_noop`: an application with empty CV text is
skipped and reprocess still reports success. -/
theorem c10_silent_noop_witness :
    appOf dbEmptyCv 1 = some appEmptyCv
    ∧ truthyOptStr appEmptyCv.cv_text_content = false
    ∧ (process_application_async envA 1 dbEmptyCv = ⟨dbEmptyCv, false, []⟩
      ∧ reprocess_application envA 1 dbEmptyCv = ⟨.success, dbEmptyCv, []⟩) :=
  ⟨rfl, rfl, (c10_silent_noop envA 1 dbEmptyCv).2 appEmptyCv rfl rfl⟩

/-! ## Claims C5 and C6 -/

theorem run_eval_create' (env : RunEnv) (idv : ℕ) (db : DB) (a : AppRecord)
    (ha : appOf db idv = some a) (hcv : truthyOptStr a.cv_text_content = true)
    (hc : env.crash = none) (h0 : evalOf db idv = none)
    (hfresh : ∀ x ∈ db.evaluations, ¬ x.id = db.nextEvalId) :
    ∃ enew : EvalRecord, (process_application_async env idv db).db.evaluations
        = db.evaluations ++ [enew]
      ∧ enew.id = db.nextEvalId ∧ enew.application_id = idv
      ∧ enew.candidate_summary = env.summary ∧ enew.ai_score = env.score.1
      ∧ enew.ai_considerations = env.score.2
      ∧ enew.job_profile_requirements = resolveProfileRequirements env db a
      ∧ enew.evaluation_status = "completed" ∧ enew.evaluated_at = some env.now
      ∧ enew.hr_reviewed = false ∧ enew.hr_score = none
      ∧ enew.hr_notes = none ∧ enew.hr_decision = none := by
  obtain ⟨ex, rid, h⟩ := run_eval_create env idv db a ha hcv hc h0 hfresh
  exact ⟨_, h, rfl, rfl, rfl, rfl, rfl, rfl, rfl, rfl, rfl, rfl, rfl, rfl⟩

theorem run_eval_update' (env : RunEnv) (idv : ℕ) (db : DB) (a : AppRecord) (e : EvalRecord)
    (ha : appOf db idv = some a) (hcv : truthyOptStr a.cv_text_content = true)
    (hc : env.crash = none) (he : evalOf db idv = some e) :
    ∃ e' : EvalRecord, (process_application_async env idv db).db.evaluations
        = db.evaluations.map (fun x => if x.id == e.id then e' else x)
      ∧ e'.id = e.id ∧ e'.application_id = e.application_id
      ∧ e'.candidate_summary = env.summary ∧ e'.ai_score = env.score.1
      ∧ e'.ai_considerations = env.score.2
      ∧ e'.job_profile_requirements = resolveProfileRequirements env db a
      ∧ e'.evaluation_status = "completed" ∧ e'.evaluated_at = some env.now
      ∧ e'.hr_reviewed = e.hr_reviewed ∧ e'.hr_score = e.hr_score
      ∧ e'.hr_notes = e.hr_notes ∧ e'.hr_decision = e.hr_decision := by
  obtain ⟨ex, rid, h⟩ := run_eval_update env idv db a e ha hcv hc he
  exact ⟨_, h, rfl, rfl, rfl, rfl, rfl, rfl, rfl, rfl, rfl, rfl, rfl, rfl⟩

/-- Claim C5: starting from a store with no evaluation for the application,
one crash-free run creates exactly one evaluation row; a second crash-free run
(a reprocess with whatever inputs) still leaves exactly one row, with the same
row id (updated in place, not duplicated) and with the second run's
`evaluated_at` timestamp. -/
theorem c5_evaluation_upsert (env1 env2 : RunEnv) (idv : ℕ) (db : DB) (a : AppRecord)
    (ha : appOf db idv = some a) (hcv : truthyOptStr a.cv_text_content = true)
    (h1 : env1.crash = none) (h2 : env2.crash = none)
    (h0 : evalOf db idv = none)
    (hfresh : ∀ x ∈ db.evaluations, ¬ x.id = db.nextEvalId) :
    countEvals (process_application_async env1 idv db).db idv = 1
    ∧ countEvals (process_application_async env2 idv
        (process_application_async env1 idv db).db).db idv = 1
    ∧ ((evalOf (process_application_async env2 idv
        (process_application_async env1 idv db).db).db idv).map
          (fun e => (e.id, e.evaluated_at)))
        = some (db.nextEvalId, some env2.now)
    ∧ ((evalOf (process_application_async env1 idv db).db idv).map (fun e => e.id))
        = ((evalOf (process_application_async env2 idv
            (process_application_async env1 idv db).db).db idv).map (fun e => e.id)) := by
  have h0' := h0
  simp only [evalOf] at h0'
  have hfil : db.evaluations.filter (fun e => e.application_id == idv) = [] := by
    rw [List.filter_eq_nil_iff]
    intro x hx
    exact List.find?_eq_none.mp h0' x hx
  obtain ⟨e1, hev1, hid1, happ1, _, _, _, _, _, hat1, _, _, _, _⟩ :=
    run_eval_create' env1 idv db a ha hcv h1 h0 hfresh
  have hfind1 : evalOf (process_application_async env1 idv db).db idv = some e1 := by
    unfold evalOf
    rw [hev1]
    exact find?_append_right_eval _ _ _ h0' (by simp [happ1])
  have hcount1 : countEvals (process_application_async env1 idv db).db idv = 1 := by
    unfold countEvals
    rw [hev1, List.filter_append, hfil]
    simp [happ1]
  have hneg1 : ¬ (env1.crash = some .atSteps ∨ env1.crash = some .atFinalCommit) := by
    rw [h1]; rintro (h | h) <;> exact Option.noConfusion h
  have ha1 := ((run_effect_app env1 idv db a ha hcv).2 hneg1).1
  have hcv1 : truthyOptStr (mergedApp env1 a "evaluated").cv_text_content = true := hcv
  obtain ⟨e2, hev2, hid2, happ2, _, _, _, _, _, hat2, _, _, _, _⟩ :=
    run_eval_update' env2 idv _ (mergedApp env1 a "evaluated") e1 ha1 hcv1 h2 hfind1
  rw [hev1, List.map_append] at hev2
  rw [map_replace_of_no_clash (fun y : EvalRecord => y.id) db.evaluations e1.id _
    (fun y hy => by rw [hid1]; exact hfresh y hy)] at hev2
  simp only [List.map_cons, List.map_nil, beq_self_eq_true, if_true] at hev2
  have hfind2 : evalOf (process_application_async env2 idv
      (process_application_async env1 idv db).db).db idv = some e2 := by
    unfold evalOf
    rw [hev2]
    exact find?_append_right_eval _ _ _ h0' (by simp [happ2, happ1])
  refine ⟨hcount1, ?_, ?_, ?_⟩
  · unfold countEvals
    rw [hev2, List.filter_append, hfil]
    simp [happ2, happ1]
  · rw [hfind2]
    simp [hid2, hid1, hat2]
  · rw [hfind1, hfind2]
    simp [hid2]

/-- A second run environment with a later clock. -/
def envFresh : RunEnv :=
  { envA with now := 200 }

/-- Closed witness for `c5_evaluation_upsert`: one submission plus one
reprocess yields one evaluation row with the second run's timestamp. -/
theorem c5_evaluation_upsert_witness :
    (appOf dbA 1 = some appA ∧ truthyOptStr appA.cv_text_content = true
      ∧ evalOf dbA 1 = none)
    ∧ (countEvals (process_application_async envA 1 dbA).db 1 = 1
      ∧ countEvals (process_application_async envFresh 1
          (process_application_async envA 1 dbA).db).db 1 = 1
      ∧ ((evalOf (process_application_async envFresh 1
          (process_application_async envA 1 dbA).db).db 1).map
            (fun e => (e.id, e.evaluated_at)))
          = some (dbA.nextEvalId, some envFresh.now)
      ∧ ((evalOf (process_application_async envA 1 dbA).db 1).map (fun e => e.id))
          = ((evalOf (process_application_async envFresh 1
              (process_application_async envA 1 dbA).db).db 1).map (fun e => e.id))) :=
  ⟨⟨rfl, rfl, rfl⟩,
    c5_evaluation_upsert envA envFresh 1 dbA appA rfl rfl rfl rfl rfl
      (by intro x hx; simp [dbA] at hx)⟩

/-- Claim C6: when the upsert updates an existing evaluation, the stored row
keeps its `application_id` and all four human-review fields, and receives
exactly the run's AI outputs (summary, score, considerations, requirements,
status, timestamp); moreover no run ever changes the `application_id` of any
stored evaluation row. -/
theorem c6_update_frame (env : RunEnv) (idv : ℕ) (db : DB) (a : AppRecord) (e : EvalRecord)
    (ha : appOf db idv = some a) (hcv : truthyOptStr a.cv_text_content = true)
    (hc : env.crash = none) (he : evalOf db idv = some e)
    (hids : (db.evaluations.map (fun x => x.id)).Nodup) :
    ∃ e', evalOf (process_application_async env idv db).db idv = some e'
      ∧ e'.application_id = e.application_id
      ∧ e'.hr_reviewed = e.hr_reviewed ∧ e'.hr_score = e.hr_score
      ∧ e'.hr_notes = e.hr_notes ∧ e'.hr_decision = e.hr_decision
      ∧ e'.candidate_summary = env.summary ∧ e'.ai_score = env.score.1
      ∧ e'.ai_considerations = env.score.2 ∧ e'.evaluation_status = "completed"
      ∧ e'.evaluated_at = some env.now
      ∧ ((process_application_async env idv db).db.evaluations.map
          (fun x => x.application_id))
        = db.evaluations.map (fun x => x.application_id) := by
  have he' := he
  simp only [evalOf] at he'
  have hemem : e ∈ db.evaluations := List.mem_of_find?_eq_some he'
  have hep := List.find?_some he'
  obtain ⟨e', hev, hid, happ, hsum, hsc, hcons, hreq, hst, hat, hr1, hr2, hr3, hr4⟩ :=
    run_eval_update' env idv db a e ha hcv hc he
  refine ⟨e', ?_, happ, hr1, hr2, hr3, hr4, hsum, hsc, hcons, hst, hat, ?_⟩
  · unfold evalOf
    rw [hev]
    exact find?_replace_eval _ _ _ _ he' (by rw [happ]; exact hep)
  · rw [hev, List.map_map]
    apply List.map_congr_left
    intro x hx
    simp only [Function.comp]
    by_cases hxe : (x.id == e.id) = true
    · have hxeq : x = e :=
        List.inj_on_of_nodup_map hids hx hemem (by simpa using hxe)
      rw [if_pos hxe, happ, hxeq]
    · rw [if_neg hxe]

/-- Closed witness for `c6_update_frame`: reprocessing over an existing,
HR-reviewed evaluation preserves the review and the application reference. -/
theorem c6_update_frame_witness :
    (appOf dbB 1 = some appA ∧ evalOf dbB 1 = some evalB)
    ∧ (∃ e', evalOf (process_application_async envA 1 dbB).db 1 = some e'
      ∧ e'.application_id = evalB.application_id
      ∧ e'.hr_reviewed = evalB.hr_reviewed ∧ e'.hr_score = evalB.hr_score
      ∧ e'.hr_notes = evalB.hr_notes ∧ e'.hr_decision = evalB.hr_decision
      ∧ e'.candidate_summary = envA.summary ∧ e'.ai_score = envA.score.1
      ∧ e'.ai_considerations = envA.score.2 ∧ e'.evaluation_status = "completed"
      ∧ e'.evaluated_at = some envA.now
      ∧ ((process_application_async envA 1 dbB).db.evaluations.map
          (fun x => x.application_id))
        = dbB.evaluations.map (fun x => x.application_id)) :=
  ⟨⟨rfl, rfl⟩,
    c6_update_frame envA 1 dbB appA evalB rfl rfl rfl rfl (by simp [dbB])⟩

/-! ## Claim C7 -/

/-- Counterexample to claim C7 as stated: with a foreign-key profile whose
requirements text is empty, a role-matching profile with non-empty text, and
an available spreadsheet, the code skips the role match (it only runs when no
profile OBJECT was found) yet still consults the spreadsheet (that fallback
triggers on empty TEXT), yielding the spreadsheet's text where the claimed
short-circuit chain would yield the role match's text. -/
theorem c7_profile_resolution_counterexample :
    resolveProfileRequirements envC7 dbC7 appC7 = "From sheets"
    ∧ resolveProfileSpecChain envC7 dbC7 appC7 = "Role match"
    ∧ ¬ resolveProfileRequirements envC7 dbC7 appC7
        = resolveProfileSpecChain envC7 dbC7 appC7 := by
  refine ⟨by decide, by decide, by decide⟩

/-- Amended claim C7: (a) a foreign-key-resolved profile with non-empty text
wins outright; (b) the case-sensitive role match is consulted only when no
profile object came from (a), and wins when its text is non-empty; (c) the
spreadsheet lookup (case-insensitive, absent/failing service = no hit) runs
whenever the text is still empty; with nothing resolved anywhere the scorer is
still invoked with an empty requirements string and its score and rationale
are stored. -/
theorem c7_profile_resolution_amended :
    (∀ env db app p, fkProfile db app = some p → ¬ p.profile_wanted = "" →
      resolveProfileRequirements env db app = p.profile_wanted)
    ∧ (∀ env db app p, fkProfile db app = none → roleProfile db app = some p →
        ¬ p.profile_wanted = "" →
      resolveProfileRequirements env db app = p.profile_wanted)
    ∧ (∀ env db app, fkProfile db app = none → roleProfile db app = none →
      resolveProfileRequirements env db app
        = (if env.profilesUrl && env.sheetsAvailable then
            match get_job_profile_by_role env.sheetsAvailable env.sheetsRaise
                env.sheetsRecords app.job_role with
            | some profile_data => profile_data.profile_wanted
            | none => ""
          else ""))
    ∧ (∀ env idv db a, appOf db idv = some a →
        truthyOptStr a.cv_text_content = true → env.crash = none →
        evalOf db idv = none → (∀ x ∈ db.evaluations, ¬ x.id = db.nextEvalId) →
        resolveProfileRequirements env db a = "" →
        ((evalOf (process_application_async env idv db).db idv).map
          (fun e => (e.job_profile_requirements, e.ai_score, e.ai_considerations)))
          = some ("", env.score.1, env.score.2)) := by
  refine ⟨?_, ?_, ?_, ?_⟩
  · intro env db app p hfk hne
    simp [resolveProfileRequirements, hfk, hne]
  · intro env db app p hfk hrole hne
    simp [resolveProfileRequirements, hfk, hrole, hne]
  · intro env db app hfk hrole
    simp [resolveProfileRequirements, hfk, hrole]
  · intro env idv db a ha hcv hc h0 hfresh hreq
    have h0' := h0
    simp only [evalOf] at h0'
    obtain ⟨e1, hev1, hid1, happ1, hsum1, hsc1, hcons1, hreq1, hst1, hat1, _, _, _, _⟩ :=
      run_eval_create' env idv db a ha hcv hc h0 hfresh
    have hfind1 : evalOf (process_application_async env idv db).db idv = some e1 := by
      unfold evalOf
      rw [hev1]
      exact find?_append_right_eval _ _ _ h0' (by simp [happ1])
    rw [hfind1]
    simp only [Option.map_some']
    rw [hreq1, hreq, hsc1, hcons1]

/-- Job profile with non-empty requirements, for the C7 witness. -/
def profW : JobProfileRec :=
  { id := 1, role := "Sales", profile_wanted := "Sales reqs" }

/-- Job explicitly referencing `profW`. -/
def jobW : JobRec :=
  { id := 1, title := "Sales Position", job_profile_id := some 1 }

/-- Store where the foreign-key chain resolves a non-empty profile. -/
def dbW : DB :=
  { applications := [appA], evaluations := [], jobs := [jobW]
    job_profiles := [profW], nextAppId := 2, nextEvalId := 1, nextJobId := 2 }

/-- Closed witness for `c7_profile_resolution_amended`: an explicit
foreign-key profile with non-empty text wins outright. -/
theorem c7_profile_resolution_amended_witness :
    fkProfile dbW appA = some profW
    ∧ ¬ profW.profile_wanted = ""
    ∧ resolveProfileRequirements envA dbW appA = profW.profile_wanted :=
  ⟨rfl, by decide, c7_profile_resolution_amended.1 envA dbW appA profW rfl (by decide)⟩

end Screenly
